import Mathlib

/-!
# Verification of the GHRSST query-resolution engine and resilient client

Shallow embedding of the spatiotemporal query-resolution engine
(`ghrsst_app.py`) and the resilient retrieval client
(`mcp/ghrsst_mcp_server.py`).

Conventions used throughout:

* Calendar dates are modelled as integers (a day ordinal).  Valid
  `YYYY-MM-DD` strings compare lexicographically exactly as their day
  ordinals compare numerically, and `timedelta(days=n)` is `+ n`, so every
  date comparison and date-arithmetic step of the source maps to `Int`
  comparison and addition.
* Floating-point coordinate and field values are modelled as exact
  rationals `ℚ`; the source logic only compares, subtracts and rounds
  them.
* Fallible code paths return a sum type mirroring the specific exception
  raised by the source.
-/

namespace Ghrsst

/-! ## Coordinate Indexer (`ghrsst_app.py`, `_idx_from_coord`) -/

/-- `np.searchsorted(arr, v)` (default `side='left'`) for a sorted list:
the first index whose element is `≥ v`, i.e. the left insertion point. -/
def searchsorted (v : ℚ) : List ℚ → Nat
  | [] => 0
  | a :: rest => if a < v then searchsorted v rest + 1 else 0

/-- `_idx_from_coord(val, arr)`: left insertion point `j`; `0` if `j = 0`;
`len-1` if `j ≥ len`; otherwise `j` when `|arr[j]-val| < |arr[j-1]-val|`,
else `j-1`. -/
def idxFromCoord (v : ℚ) (arr : List ℚ) : Nat :=
  let j := searchsorted v arr
  if j = 0 then 0
  else if arr.length ≤ j then arr.length - 1
  else if |arr.getD j 0 - v| < |arr.getD (j - 1) 0 - v| then j else j - 1

/-! ## Day Resolver (`ghrsst_app.py`, `read_ghrsst` point/bbox date logic)

Dates are day ordinals (`Int`): `YYYY-MM-DD` strings compare
lexicographically exactly as day ordinals compare numerically, and
`timedelta(days=n)` is `+ n`. -/

/-- `cfg.MAX_DAYS`: maximum inclusive days for a point-range request. -/
def MAX_DAYS : Int := 31

/-- `_daterange_inclusive(s, e)`: `n = (e - s) + 1` dates starting at `s`
(empty when `n ≤ 0`, as Python's `range`). -/
def daterangeInclusive (s e : Int) : List Int :=
  (List.range (e - s + 1).toNat).map (fun i : Nat => s + (i : Int))

/-- Point-mode span resolution of `read_ghrsst` once both `s` and `e` are
present: swap if `s > e`; raise `s` to `earliest` if below; lower `e` to
`latest` if above; cap `e` at `s + (MAX_DAYS - 1)`; enumerate. -/
def pointSpanResolve (s e earliest latest : Int) : List Int :=
  let p := if e < s then (e, s) else (s, e)
  let s1 := if p.1 < earliest then earliest else p.1
  let e1 := if latest < p.2 then latest else p.2
  let maxEnd := s1 + (MAX_DAYS - 1)
  let e2 := if maxEnd < e1 then maxEnd else e1
  daterangeInclusive s1 e2

/-- Point-mode date resolution of `read_ghrsst`: neither date ⇒ `[latest]`;
a missing start defaults to end and vice versa; then `pointSpanResolve`. -/
def resolvePointDates (start? end? : Option Int) (earliest latest : Int) :
    List Int :=
  match start?, end? with
  | none, none => [latest]
  | some s, none => pointSpanResolve s s earliest latest
  | none, some e => pointSpanResolve e e earliest latest
  | some s, some e => pointSpanResolve s e earliest latest

/-- Bbox-mode date choice of `read_ghrsst`: `start` when both given, the
supplied one when only one given, otherwise `latest`. -/
def resolveBboxDay (start? end? : Option Int) (latest : Int) : Int :=
  match start?, end? with
  | some s, some _ => s
  | some s, none => s
  | none, some e => e
  | none, none => latest

/-- Result of the bbox single-day availability check. -/
inductive BboxDayResult where
  | ok (day : Int)
  | unavailable (day earliest latest : Int)
deriving DecidableEq

/-- Bbox-mode single-day gate of `read_ghrsst`: the chosen day must lie in
`[earliest, latest]` and its group must exist, else the
single-day-unavailable error (with the chosen day and both bounds in the
message). -/
def bboxDayCheck (start? end? : Option Int) (earliest latest : Int)
    (exists? : Int → Bool) : BboxDayResult :=
  let chosen := resolveBboxDay start? end? latest
  if chosen < earliest ∨ latest < chosen ∨ exists? chosen = false then
    .unavailable chosen earliest latest
  else .ok chosen

/-! ## Limit Enforcer (`ghrsst_app.py`, bbox point budget) -/

/-- `cfg.POINT_LIMIT` default: hard ceiling for bbox points. -/
def POINT_LIMIT : Nat := 1000000

/-- Result of the bbox stride/point-budget computation. -/
inductive BboxCountResult where
  | badSample
  | tooMany (total limit : Nat)
  | ok (total stride : Nat)
deriving DecidableEq

/-- Bbox point-count gate of `read_ghrsst`: reject `sample < 1`; swap
inverted index pairs; `nj = (j1-j0)//stride + 1`, `ni = (i1-i0)//stride + 1`;
fail with the computed total and the limit when `total > limit`. -/
def bboxCount (j0 j1 i0 i1 : Nat) (sample : Int) (limit : Nat) :
    BboxCountResult :=
  if sample < 1 then .badSample
  else
    let stride := sample.toNat
    let p := if j1 < j0 then (j1, j0) else (j0, j1)
    let q := if i1 < i0 then (i1, i0) else (i0, i1)
    let nj := (p.2 - p.1) / stride + 1
    let ni := (q.2 - q.1) / stride + 1
    let total := nj * ni
    if limit < total then .tooMany total limit else .ok total stride

/-! ## Response Assembler (`ghrsst_app.py`, `_apply_modes`) -/

/-- One assembled result row: nullable coordinates and an association list
of (field name, nullable value), mirroring the Python row dict.  A `none`
value encodes a masked (`NaN`) grid cell. -/
structure SstRow where
  lon : Option ℚ
  lat : Option ℚ
  vals : List (String × Option ℚ)
deriving DecidableEq

/-- Python's `round` to an integer: round-half-to-even, on exact
rationals. -/
def roundHalfEven (q : ℚ) : ℤ :=
  let f := ⌊q⌋
  if q - f < 1/2 then f
  else if 1/2 < q - f then f + 1
  else if f % 2 = 0 then f else f + 1

/-- Python's `round(x, n)`: round-half-to-even at `n` decimal digits. -/
def roundTo (n : Nat) (x : ℚ) : ℚ :=
  (roundHalfEven (x * 10 ^ n) : ℚ) / 10 ^ n

/-- The `truncate` mode applied to one row (`_apply_modes` loop body):
round non-null `lon`/`lat` to 5 decimals and each requested data field's
non-null value to 3 decimals. -/
def truncRow (fields : List String) (r : SstRow) : SstRow :=
  { lon := r.lon.map (roundTo 5)
    lat := r.lat.map (roundTo 5)
    vals := r.vals.map (fun kv =>
      if kv.1 ∈ fields then (kv.1, kv.2.map (roundTo 3)) else kv) }

/-- `_apply_modes(rows, modes, data_fields)`: rows unchanged unless the
`truncate` mode is present. -/
def applyModes (rows : List SstRow) (modes : List String)
    (fields : List String) : List SstRow :=
  if "truncate" ∈ modes then rows.map (truncRow fields) else rows

/-! ## Resilient Retrieval Client (`mcp/ghrsst_mcp_server.py`)

Error-text range parsing, nearest-date selection and the point-lookup
fallback handler. -/

/-- `DEFAULT_NEAREST_TOLERANCE_DAYS`. -/
def NEAREST_TOLERANCE_DAYS : Nat := 7

/-- Is a 10-character window shaped like the pattern for
`YYYY-MM-DD` (four digits, dash, two digits, dash, two digits)? -/
def dateShape (cs : List Char) : Bool :=
  match cs with
  | [y1, y2, y3, y4, d1, m1, m2, d2, a1, a2] =>
    y1.isDigit && y2.isDigit && y3.isDigit && y4.isDigit && (d1 == '-') &&
    m1.isDigit && m2.isDigit && (d2 == '-') && a1.isDigit && a2.isDigit
  | _ => false

/-- `re.findall` of the date pattern: scan left to right; on a match record
the 10-character window and resume after it, otherwise advance one
character.  The fuel argument (instantiated with the text length by
`findDates`) only bounds the recursion: every step consumes at least one
character, so it never runs out. -/
def findDatesFuel : Nat → List Char → List (List Char)
  | 0, _ => []
  | _, [] => []
  | fuel + 1, c :: rest =>
    if dateShape ((c :: rest).take 10) then
      ((c :: rest).take 10) :: findDatesFuel fuel ((c :: rest).drop 10)
    else findDatesFuel fuel rest

/-- All date-shaped matches of a text, leftmost first, non-overlapping. -/
def findDates (cs : List Char) : List (List Char) := findDatesFuel cs.length cs

/-- Python string `<` on character lists (lexicographic by code point). -/
def lexLt : List Char → List Char → Bool
  | [], [] => false
  | [], _ :: _ => true
  | _ :: _, [] => false
  | a :: as, b :: bs => if a < b then true else if b < a then false else lexLt as bs

/-- `_parse_available_range(detail)`: with at least two date matches, take
the LAST two (`matches[-2]`, `matches[-1]`), swap them if out of order, and
return the pair; otherwise return nothing. -/
def parseAvailableRange (text : List Char) :
    Option (List Char × List Char) :=
  let ms := findDates text
  if 2 ≤ ms.length then
    let earliest := ms.getD (ms.length - 2) []
    let latest := ms.getD (ms.length - 1) []
    if lexLt latest earliest then some (latest, earliest)
    else some (earliest, latest)
  else none

/-- `_select_nearest_date(requested, earliest, latest)`. -/
def selectNearestDate (req ear lat : Int) : Int :=
  if req ≤ ear then ear
  else if lat ≤ req then lat
  else if req - ear ≤ lat - req then ear else lat

/-- Outcome of the `NotFoundError` handler in `ghrsst_point_value`. -/
inductive NearestOutcome where
  | reraise
  | toleranceFail (requested fallback : Int) (delta : Nat)
  | retry (fallback : Int)
deriving DecidableEq

/-- The `except NotFoundError` handler of `ghrsst_point_value`: re-raise
unless `method == "nearest"` and a date was given and a range was parsed
and the nearest bound differs from the requested date; then fail naming
both dates if the day distance exceeds the tolerance, else retry against
the fallback date. -/
def handleNotFound (methodNearest : Bool) (date? : Option Int)
    (range? : Option (Int × Int)) (tol : Nat) : NearestOutcome :=
  match methodNearest, date?, range? with
  | false, _, _ => .reraise
  | true, none, _ => .reraise
  | true, some _, none => .reraise
  | true, some d, some (e, l) =>
    let fb := selectNearestDate d e l
    if fb = d then .reraise
    else if tol < (d - fb).natAbs then .toleranceFail d fb (d - fb).natAbs
    else .retry fb

/-! ## Transport retry (`_ghrsst_request`) -/

/-- Observable outcome of one transport attempt: a raised transport/timeout
exception, or a response with a status code. -/
inductive TransportResult where
  | exn
  | status (code : Nat)
deriving DecidableEq

/-- `RETRYABLE_STATUS = {429, 500, 502, 503, 504}`. -/
def RETRYABLE_STATUS : List Nat := [429, 500, 502, 503, 504]

/-- Membership in `RETRYABLE_STATUS`. -/
def isRetryable (c : Nat) : Bool := RETRYABLE_STATUS.contains c

/-- Does an attempt outcome keep the loop going (exception, or retryable
status)? -/
def isRetryableTR : TransportResult → Bool
  | .exn => true
  | .status c => isRetryable c

/-- The `last_error` variable of `_ghrsst_request`. -/
inductive LastErr where
  | noneYet
  | exn
  | resp (code : Nat)
deriving DecidableEq

/-- The `last_error` recorded for a failed attempt. -/
def lastErrOf : TransportResult → LastErr
  | .exn => .exn
  | .status c => .resp c

/-- Result of `_ghrsst_request`: the returned response's status, or the
terminal `ToolError` carrying the last response status / the last
transport failure. -/
inductive ReqResult where
  | success (code : Nat)
  | errStatus (code : Nat)
  | errTransport
deriving DecidableEq

/-- `MAX_RETRIES = 3`. -/
def MAX_RETRIES : Nat := 3

/-- `INITIAL_BACKOFF = 0.75`. -/
def INITIAL_BACKOFF : ℚ := 3/4

/-- Error raised after the loop, from the last recorded failure. -/
def finalErr : LastErr → ReqResult
  | .resp c => .errStatus c
  | _ => .errTransport

/-- The `for attempt in range(MAX_RETRIES)` loop of `_ghrsst_request`,
with `fuel` the remaining attempts (so `attempt + fuel = MAX_RETRIES`
at every call from `ghrsstRequest`, and the sleep guard
`attempt < MAX_RETRIES - 1` is `0 < fuel` after the decrement).  Returns
the result together with the list of backoff sleeps
(`INITIAL_BACKOFF * 2 ^ attempt`) performed. -/
def reqLoop (responses : Nat → TransportResult) (attempt : Nat)
    (last : LastErr) : Nat → ReqResult × List ℚ
  | 0 => (finalErr last, [])
  | fuel + 1 =>
    match responses attempt with
    | .status c =>
      if isRetryable c then
        ((reqLoop responses (attempt + 1) (.resp c) fuel).1,
         (if 0 < fuel then [INITIAL_BACKOFF * 2 ^ attempt] else []) ++
           (reqLoop responses (attempt + 1) (.resp c) fuel).2)
      else (.success c, [])
    | .exn =>
      ((reqLoop responses (attempt + 1) .exn fuel).1,
       (if 0 < fuel then [INITIAL_BACKOFF * 2 ^ attempt] else []) ++
         (reqLoop responses (attempt + 1) .exn fuel).2)

/-- `_ghrsst_request`, abstracted over the per-attempt transport
outcomes. -/
def ghrsstRequest (responses : Nat → TransportResult) : ReqResult × List ℚ :=
  reqLoop responses 0 .noneYet MAX_RETRIES

/-! ## Bbox-mean adaptive stride search (`ghrsst_bbox_mean`) -/

/-- `MAX_SAMPLE_ATTEMPTS = 4`. -/
def MAX_SAMPLE_ATTEMPTS : Nat := 4

/-- Observable outcome of one `fetch(target_date, stride)` call as seen by
the stride-search loop: success, a `TooManyPoints` tool error, a
`NotFoundError` (whose text may parse to an available range), or any other
tool error. -/
inductive FetchResult where
  | ok
  | tooMany
  | notFound (range? : Option (Int × Int))
  | err
deriving DecidableEq

/-- Outcome of one pass of the `for attempt in range(MAX_SAMPLE_ATTEMPTS)`
loop. -/
inductive InnerOut where
  | success (stride : Nat)
  | tooManyFail
  | notFound (range? : Option (Int × Int))
  | errRaise
  | exhausted
deriving DecidableEq

/-- One pass of the stride-search `for` loop of `ghrsst_bbox_mean`, with
`fuel` the remaining attempts (4 at the top): on `TooManyPoints` with
attempts left (`attempt < MAX_SAMPLE_ATTEMPTS - 1`, i.e. `0 < fuel` after
the decrement) double the stride and continue, otherwise raise; any other
outcome ends the pass.  Also returns the list of strides tried. -/
def innerTrace (fetch : Int → Nat → FetchResult) (td : Int) :
    Nat → Nat → InnerOut × List Nat
  | _, 0 => (.exhausted, [])
  | s, fuel + 1 =>
    match fetch td s with
    | .ok => (.success s, [s])
    | .notFound range? => (.notFound range?, [s])
    | .err => (.errRaise, [s])
    | .tooMany =>
      if 0 < fuel then
        ((innerTrace fetch td (s * 2) fuel).1,
         s :: (innerTrace fetch td (s * 2) fuel).2)
      else (.tooManyFail, [s])

/-- Final outcome of `ghrsst_bbox_mean`'s retry state machine. -/
inductive BboxOut where
  | success (day : Int) (stride : Nat) (nearestTag : Bool)
  | tooManyFail
  | notFoundFail
  | toleranceFail (requested fallback : Int) (delta : Nat)
  | errRaise
  | exhausted
deriving DecidableEq

/-- The `while True` state machine of `ghrsst_bbox_mean`: run the
stride-search pass on the requested date; on a `NotFoundError` with
`method == "nearest"` (and the target still the requested date), parse the
range, select the nearest date, and — if it differs and is within
tolerance — reset the stride to the initial estimate and rerun the pass
against the substituted date (whose own `NotFoundError` then re-raises,
since the target no longer equals the requested date).  Also returns the
`(target_date, stride)` trace of every fetch performed. -/
def bboxMeanLoop (fetch : Int → Nat → FetchResult) (date : Int)
    (initial : Nat) (methodNearest : Bool) (tol : Nat) :
    BboxOut × List (Int × Nat) :=
  let r1 := innerTrace fetch date initial MAX_SAMPLE_ATTEMPTS
  let base := r1.2.map (fun s => (date, s))
  match r1.1 with
  | .success s => (.success date s false, base)
  | .tooManyFail => (.tooManyFail, base)
  | .errRaise => (.errRaise, base)
  | .exhausted => (.exhausted, base)
  | .notFound range? =>
    match methodNearest, range? with
    | true, some (e, l) =>
      let fb := selectNearestDate date e l
      if fb = date then (.notFoundFail, base)
      else if tol < (date - fb).natAbs then
        (.toleranceFail date fb (date - fb).natAbs, base)
      else
        let r2 := innerTrace fetch fb initial MAX_SAMPLE_ATTEMPTS
        let tr := base ++ r2.2.map (fun s => (fb, s))
        match r2.1 with
        | .success s => (.success fb s true, tr)
        | .tooManyFail => (.tooManyFail, tr)
        | .errRaise => (.errRaise, tr)
        | .exhausted => (.exhausted, tr)
        | .notFound _ => (.notFoundFail, tr)
    | _, _ => (.notFoundFail, base)

/-- A concrete backend error text with three date matches, the last two out
of chronological order. -/
def sampleErrorText : List Char :=
  ['2','0','2','5','-','1','0','-','1','0',' ',
   '2','0','2','5','-','1','0','-','0','5',' ',
   '2','0','2','5','-','1','0','-','0','1']

/-- A concrete backend for the **C4** witness: on the requested day 5,
stride 1 is over budget and stride 2 reports the available range `[0, 3]`;
every other day succeeds at once. -/
def fetchEx : Int → Nat → FetchResult :=
  fun d s =>
    if d = 5 then (if s = 1 then .tooMany else .notFound (some (0, 3)))
    else .ok

lemma searchsorted_le_length (v : ℚ) (l : List ℚ) :
    searchsorted v l ≤ l.length := by
  induction l with
  | nil => simp [searchsorted]
  | cons a rest ih =>
    simp only [searchsorted, List.length_cons]
    split <;> omega

lemma getD_lt_of_lt_searchsorted (v : ℚ) (l : List ℚ) (k : Nat)
    (hk : k < searchsorted v l) : l.getD k 0 < v := by
  induction l generalizing k with
  | nil => simp [searchsorted] at hk
  | cons a rest ih =>
    simp only [searchsorted] at hk
    by_cases ha : a < v
    · rw [if_pos ha] at hk
      cases k with
      | zero => simpa using ha
      | succ k => exact ih k (by omega)
    · rw [if_neg ha] at hk
      omega

lemma le_getD_of_searchsorted_le (v : ℚ) (l : List ℚ)
    (hs : l.Sorted (· ≤ ·)) (k : Nat)
    (hk : searchsorted v l ≤ k) (hlen : k < l.length) :
    v ≤ l.getD k 0 := by
  induction l generalizing k with
  | nil => simp at hlen
  | cons a rest ih =>
    rw [List.sorted_cons] at hs
    simp only [searchsorted] at hk
    by_cases ha : a < v
    · rw [if_pos ha] at hk
      cases k with
      | zero => omega
      | succ k =>
        exact ih hs.2 k (by omega) (by simpa using hlen)
    · rw [if_neg ha] at hk
      cases k with
      | zero => simpa using le_of_not_lt ha
      | succ k =>
        have hk' : k < rest.length := by simpa using hlen
        have hmem : rest.getD k 0 ∈ rest := by
          rw [List.getD_eq_getElem rest 0 hk']
          exact List.getElem_mem hk'
        calc v ≤ a := le_of_not_lt ha
        _ ≤ rest.getD k 0 := hs.1 _ hmem

lemma sorted_getD_mono (l : List ℚ) (hs : l.Sorted (· ≤ ·)) (i k : Nat)
    (hik : i ≤ k) (hk : k < l.length) :
    l.getD i 0 ≤ l.getD k 0 := by
  induction l generalizing i k with
  | nil => simp at hk
  | cons a rest ih =>
    rw [List.sorted_cons] at hs
    cases i with
    | zero =>
      cases k with
      | zero => simp
      | succ k =>
        have hk' : k < rest.length := by simpa using hk
        have hmem : rest.getD k 0 ∈ rest := by
          rw [List.getD_eq_getElem rest 0 hk']
          exact List.getElem_mem hk'
        simpa using hs.1 _ hmem
    | succ i =>
      cases k with
      | zero => omega
      | succ k =>
        simpa using ih hs.2 i k (by omega) (by simpa using hk)

lemma idxFromCoord_eq (v : ℚ) (arr : List ℚ) :
    idxFromCoord v arr =
      if searchsorted v arr = 0 then 0
      else if arr.length ≤ searchsorted v arr then arr.length - 1
      else if |arr.getD (searchsorted v arr) 0 - v| <
              |arr.getD (searchsorted v arr - 1) 0 - v|
        then searchsorted v arr else searchsorted v arr - 1 := rfl

/-- **C1** (corrected).  On a sorted non-empty axis, `_idx_from_coord`
returns an in-range index minimizing `|A[i]-v|`; but when the two
neighboring candidates `insertion-1` and `insertion` are equidistant from
`v` it returns the LOWER of the two indices (`insertion-1`), not the
higher one the claim states. -/
theorem idxFromCoord_nearest (v : ℚ) (arr : List ℚ)
    (hs : arr.Sorted (· ≤ ·)) (hne : arr ≠ []) :
    idxFromCoord v arr < arr.length ∧
    (∀ k, k < arr.length →
      |arr.getD (idxFromCoord v arr) 0 - v| ≤ |arr.getD k 0 - v|) ∧
    (0 < searchsorted v arr → searchsorted v arr < arr.length →
      |arr.getD (searchsorted v arr) 0 - v| =
        |arr.getD (searchsorted v arr - 1) 0 - v| →
      idxFromCoord v arr = searchsorted v arr - 1) := by
  have hlen : 0 < arr.length := List.length_pos.mpr hne
  have hjle := searchsorted_le_length v arr
  by_cases hj0 : searchsorted v arr = 0
  · have hres : idxFromCoord v arr = 0 := by
      rw [idxFromCoord_eq, if_pos hj0]
    refine ⟨by omega, ?_, ?_⟩
    · intro k hk
      have h0 : v ≤ arr.getD 0 0 :=
        le_getD_of_searchsorted_le v arr hs 0 (by omega) hlen
      have hkv : v ≤ arr.getD k 0 :=
        le_getD_of_searchsorted_le v arr hs k (by omega) hk
      have hmono : arr.getD 0 0 ≤ arr.getD k 0 :=
        sorted_getD_mono arr hs 0 k (by omega) hk
      rw [hres, abs_of_nonneg (by linarith), abs_of_nonneg (by linarith)]
      linarith
    · intro h1 _ _; omega
  · by_cases hjlen : arr.length ≤ searchsorted v arr
    · have hres : idxFromCoord v arr = arr.length - 1 := by
        rw [idxFromCoord_eq, if_neg hj0, if_pos hjlen]
      refine ⟨by omega, ?_, ?_⟩
      · intro k hk
        have hkv : arr.getD k 0 < v :=
          getD_lt_of_lt_searchsorted v arr k (by omega)
        have hlast : arr.getD (arr.length - 1) 0 < v :=
          getD_lt_of_lt_searchsorted v arr _ (by omega)
        have hmono : arr.getD k 0 ≤ arr.getD (arr.length - 1) 0 :=
          sorted_getD_mono arr hs k _ (by omega) (by omega)
        rw [hres, abs_of_nonpos (by linarith), abs_of_nonpos (by linarith)]
        linarith
      · intro _ h2 _; omega
    · push_neg at hjlen
      have hjv : v ≤ arr.getD (searchsorted v arr) 0 :=
        le_getD_of_searchsorted_le v arr hs _ (le_refl _) hjlen
      have hj1v : arr.getD (searchsorted v arr - 1) 0 < v :=
        getD_lt_of_lt_searchsorted v arr _ (by omega)
      by_cases hcmp : |arr.getD (searchsorted v arr) 0 - v| <
          |arr.getD (searchsorted v arr - 1) 0 - v|
      · have hres : idxFromCoord v arr = searchsorted v arr := by
          rw [idxFromCoord_eq, if_neg hj0, if_neg (not_le.mpr hjlen),
            if_pos hcmp]
        refine ⟨by omega, ?_, ?_⟩
        · intro k hk
          rcases lt_or_ge k (searchsorted v arr) with hkj | hkj
          · have hkv : arr.getD k 0 < v :=
              getD_lt_of_lt_searchsorted v arr k hkj
            have hmono : arr.getD k 0 ≤ arr.getD (searchsorted v arr - 1) 0 :=
              sorted_getD_mono arr hs k _ (by omega) (by omega)
            rw [abs_of_nonneg (by linarith),
              abs_of_nonpos (by linarith)] at hcmp
            rw [hres, abs_of_nonneg (by linarith),
              abs_of_nonpos (by linarith)]
            linarith
          · have hkv : v ≤ arr.getD k 0 :=
              le_getD_of_searchsorted_le v arr hs k hkj hk
            have hmono : arr.getD (searchsorted v arr) 0 ≤ arr.getD k 0 :=
              sorted_getD_mono arr hs _ k hkj hk
            rw [hres, abs_of_nonneg (by linarith),
              abs_of_nonneg (by linarith)]
            linarith
        · intro _ _ heq
          rw [heq] at hcmp
          exact absurd hcmp (lt_irrefl _)
      · have hres : idxFromCoord v arr = searchsorted v arr - 1 := by
          rw [idxFromCoord_eq, if_neg hj0, if_neg (not_le.mpr hjlen),
            if_neg hcmp]
        push_neg at hcmp
        refine ⟨by omega, ?_, ?_⟩
        · intro k hk
          rcases lt_or_ge k (searchsorted v arr) with hkj | hkj
          · have hkv : arr.getD k 0 < v :=
              getD_lt_of_lt_searchsorted v arr k hkj
            have hmono : arr.getD k 0 ≤ arr.getD (searchsorted v arr - 1) 0 :=
              sorted_getD_mono arr hs k _ (by omega) (by omega)
            rw [hres, abs_of_nonpos (by linarith),
              abs_of_nonpos (by linarith)]
            linarith
          · have hkv : v ≤ arr.getD k 0 :=
              le_getD_of_searchsorted_le v arr hs k hkj hk
            have hmono : arr.getD (searchsorted v arr) 0 ≤ arr.getD k 0 :=
              sorted_getD_mono arr hs _ k hkj hk
            rw [abs_of_nonpos (by linarith),
              abs_of_nonneg (by linarith)] at hcmp
            rw [hres, abs_of_nonpos (by linarith),
              abs_of_nonneg (by linarith)]
            linarith
        · intro _ _ _; exact hres

/-- **C1** counterexample: axis `[0, 1]`, value `1/2`.  The insertion point
is `1`, both neighbors are equidistant from the value, and the code
returns index `0` (the lower candidate), not index `1` as the claim's
"ties toward the higher index" would require. -/
theorem idxFromCoord_tie_counterexample :
    |([(0 : ℚ), 1].getD 1 0) - 1/2| = |([(0 : ℚ), 1].getD 0 0) - 1/2| ∧
    searchsorted (1/2) [(0 : ℚ), 1] = 1 ∧
    idxFromCoord (1/2) [(0 : ℚ), 1] = 0 ∧
    idxFromCoord (1/2) [(0 : ℚ), 1] ≠ 1 := by
  have h1 : |([(0 : ℚ), 1].getD 1 0) - 1/2| = 1/2 := by
    show |(1 : ℚ) - 1/2| = 1/2
    rw [abs_of_nonneg (by norm_num)]; norm_num
  have h0 : |([(0 : ℚ), 1].getD 0 0) - 1/2| = 1/2 := by
    show |(0 : ℚ) - 1/2| = 1/2
    rw [abs_of_nonpos (by norm_num)]; norm_num
  have hss : searchsorted (1/2) [(0 : ℚ), 1] = 1 := by
    norm_num [searchsorted]
  have hidx : idxFromCoord (1/2) [(0 : ℚ), 1] = 0 := by
    rw [idxFromCoord_eq, hss, h1, h0]
    norm_num
  exact ⟨h1.trans h0.symm, hss, hidx, by rw [hidx]; omega⟩

/-- **C1** witness: the spec's own scenario, axis `[120, 121, 122]` and
value `120.6 = 603/5`, instantiating the corrected theorem. -/
theorem idxFromCoord_nearest_witness :
    ([(120 : ℚ), 121, 122].Sorted (· ≤ ·) ∧ [(120 : ℚ), 121, 122] ≠ []) ∧
    (idxFromCoord (603/5) [(120 : ℚ), 121, 122] < [(120 : ℚ), 121, 122].length ∧
     (∀ k, k < [(120 : ℚ), 121, 122].length →
       |[(120 : ℚ), 121, 122].getD (idxFromCoord (603/5) [(120 : ℚ), 121, 122]) 0 - 603/5| ≤
         |[(120 : ℚ), 121, 122].getD k 0 - 603/5|) ∧
     (0 < searchsorted (603/5) [(120 : ℚ), 121, 122] →
       searchsorted (603/5) [(120 : ℚ), 121, 122] < [(120 : ℚ), 121, 122].length →
       |[(120 : ℚ), 121, 122].getD (searchsorted (603/5) [(120 : ℚ), 121, 122]) 0 - 603/5| =
         |[(120 : ℚ), 121, 122].getD (searchsorted (603/5) [(120 : ℚ), 121, 122] - 1) 0 - 603/5| →
       idxFromCoord (603/5) [(120 : ℚ), 121, 122] =
         searchsorted (603/5) [(120 : ℚ), 121, 122] - 1)) :=
  ⟨⟨by decide, by decide⟩,
   idxFromCoord_nearest (603/5) [(120 : ℚ), 121, 122] (by decide) (by decide)⟩

lemma mem_daterangeInclusive (s e d : Int) :
    d ∈ daterangeInclusive s e ↔ s ≤ d ∧ d ≤ e := by
  simp only [daterangeInclusive]
  constructor
  · intro hd
    obtain ⟨i, hi, rfl⟩ := List.mem_map.mp hd
    have hi' := List.mem_range.mp hi
    omega
  · intro h
    exact List.mem_map.mpr
      ⟨(d - s).toNat, List.mem_range.mpr (by omega), by omega⟩

lemma length_daterangeInclusive (s e : Int) :
    (daterangeInclusive s e).length = (e - s + 1).toNat := by
  simp only [daterangeInclusive, List.length_map, List.length_range]

lemma pointSpanResolve_eq (s e earliest latest : Int) :
    pointSpanResolve s e earliest latest =
      daterangeInclusive (max (min s e) earliest)
        (min (min (max s e) latest) (max (min s e) earliest + 30)) := by
  simp only [pointSpanResolve, MAX_DAYS]
  congr 1
  · split_ifs <;> omega
  · split_ifs <;> omega

/-- **C2** (corrected).  Point-mode resolution: a missing start defaults to
end and vice versa, the pair is swapped if out of order, and the enumerated
span is the intersection of the ordered request span with
`[earliest, latest]` — but additionally truncated to at most `MAX_DAYS = 31`
inclusive days from the clamped start.  The last conjunct is the claim's own
scenario (day 0 = 2025-10-01): `start=2025-09-20 (-11)`,
`end=2025-10-03 (2)`, bounds `2025-10-01 (0) .. 2025-10-05 (4)` resolve to
`2025-10-01..2025-10-03 ([0,1,2])`. -/
theorem resolvePointDates_spec (s e earliest latest d : Int) :
    (d ∈ resolvePointDates (some s) (some e) earliest latest ↔
      (max (min s e) earliest ≤ d ∧ d ≤ min (max s e) latest ∧
       d ≤ max (min s e) earliest + 30)) ∧
    resolvePointDates (some s) none earliest latest =
      resolvePointDates (some s) (some s) earliest latest ∧
    resolvePointDates none (some e) earliest latest =
      resolvePointDates (some e) (some e) earliest latest ∧
    resolvePointDates none none earliest latest = [latest] ∧
    resolvePointDates (some (-11)) (some 2) 0 4 = [0, 1, 2] := by
  refine ⟨?_, rfl, rfl, rfl, ?_⟩
  · show d ∈ pointSpanResolve s e earliest latest ↔ _
    rw [pointSpanResolve_eq, mem_daterangeInclusive]
    omega
  · show pointSpanResolve (-11) 2 0 4 = [0, 1, 2]
    have h1 : pointSpanResolve (-11) 2 0 4 = daterangeInclusive 0 2 := by
      rw [pointSpanResolve_eq]
      congr 1
    rw [h1]
    decide

/-- **C2** counterexample: bounds `[0, 364]`, request `start=-10, end=49`
(a partial overlap of the ordered span `[-10, 49]` with the bounds).  The
clamped intersection is `[0, 49]` (50 days), but the resolved span is
truncated to 31 days, so it is not the clamped intersection. -/
theorem resolvePointDates_counterexample :
    resolvePointDates (some (-10)) (some 49) 0 364 ≠
      daterangeInclusive 0 49 := by
  intro h
  have hlen := congrArg List.length h
  rw [length_daterangeInclusive] at hlen
  have : (resolvePointDates (some (-10)) (some 49) 0 364).length = 31 := by
    show (pointSpanResolve (-10) 49 0 364).length = 31
    rw [pointSpanResolve_eq, length_daterangeInclusive]
    omega
  omega

/-- **C8** (confirmed).  When the clamped point-mode span covers more than
31 inclusive days, the enumerated range is truncated to exactly 31 days
from the clamped start (the end becomes clamped start + 30). -/
theorem resolvePointDates_cap (s e earliest latest : Int)
    (h : 31 ≤ min (max s e) latest - max (min s e) earliest) :
    resolvePointDates (some s) (some e) earliest latest =
      daterangeInclusive (max (min s e) earliest)
        (max (min s e) earliest + 30) ∧
    (resolvePointDates (some s) (some e) earliest latest).length = 31 := by
  have heq : resolvePointDates (some s) (some e) earliest latest =
      daterangeInclusive (max (min s e) earliest)
        (max (min s e) earliest + 30) := by
    show pointSpanResolve s e earliest latest = _
    rw [pointSpanResolve_eq]
    congr 1
    omega
  refine ⟨heq, ?_⟩
  rw [heq, length_daterangeInclusive]
  omega

/-- **C8** witness: `start=0, end=40`, bounds `[-100, 100]`; the clamped
span `[0, 40]` covers 41 > 31 days and is truncated to `[0, 30]`. -/
theorem resolvePointDates_cap_witness :
    (31 ≤ min (max (0 : Int) 40) 100 - max (min (0 : Int) 40) (-100)) ∧
    (resolvePointDates (some 0) (some 40) (-100) 100 =
      daterangeInclusive (max (min (0 : Int) 40) (-100))
        (max (min (0 : Int) 40) (-100) + 30) ∧
     (resolvePointDates (some 0) (some 40) (-100) 100).length = 31) :=
  ⟨by omega, resolvePointDates_cap 0 40 (-100) 100 (by omega)⟩

/-- **C7** (confirmed).  Bbox mode resolves exactly one date — `start` when
both are given, the supplied one when only one is given, `latest` when
neither — and succeeds iff that date lies in `[earliest, latest]` and its
group exists; otherwise it fails with the single-day-unavailable error
naming the chosen day and both bounds (no substitution, no spanning). -/
theorem bboxDay_spec (earliest latest : Int) (exists? : Int → Bool) :
    (∀ s e : Int, resolveBboxDay (some s) (some e) latest = s) ∧
    (∀ s : Int, resolveBboxDay (some s) none latest = s) ∧
    (∀ e : Int, resolveBboxDay none (some e) latest = e) ∧
    resolveBboxDay none none latest = latest ∧
    (∀ start? end? d, bboxDayCheck start? end? earliest latest exists? = .ok d ↔
      (d = resolveBboxDay start? end? latest ∧ earliest ≤ d ∧ d ≤ latest ∧
       exists? d = true)) ∧
    (∀ start? end?, bboxDayCheck start? end? earliest latest exists? =
        .unavailable (resolveBboxDay start? end? latest) earliest latest ↔
      ¬(earliest ≤ resolveBboxDay start? end? latest ∧
        resolveBboxDay start? end? latest ≤ latest ∧
        exists? (resolveBboxDay start? end? latest) = true)) := by
  refine ⟨fun s e => rfl, fun s => rfl, fun e => rfl, rfl, ?_, ?_⟩
  · intro start? end? d
    simp only [bboxDayCheck]
    split_ifs with h
    · constructor
      · intro hcontra; cases hcontra
      · rintro ⟨rfl, h1, h2, h3⟩
        rcases h with h | h | h
        · omega
        · omega
        · rw [h3] at h; cases h
    · push_neg at h
      constructor
      · intro hok
        cases hok
        refine ⟨rfl, by omega, by omega, ?_⟩
        cases hb : exists? (resolveBboxDay start? end? latest) with
        | false => exact (h.2.2 hb).elim
        | true => rfl
      · rintro ⟨rfl, _, _, _⟩; rfl
  · intro start? end?
    simp only [bboxDayCheck]
    split_ifs with h
    · constructor
      · intro _
        rintro ⟨h1, h2, h3⟩
        rcases h with h | h | h
        · omega
        · omega
        · rw [h3] at h; cases h
      · intro _; rfl
    · push_neg at h
      constructor
      · intro hcontra; cases hcontra
      · intro hcontra
        exfalso
        refine hcontra ⟨by omega, by omega, ?_⟩
        cases hb : exists? (resolveBboxDay start? end? latest) with
        | false => exact (h.2.2 hb).elim
        | true => rfl

/-- **C6** (confirmed).  For normalized index spans and stride `≥ 1`, the
bbox point count is `(⌊(j1-j0)/s⌋+1) * (⌊(i1-i0)/s⌋+1)`, and the request
fails with `TooManyPoints` carrying that total and the ceiling exactly when
the total exceeds the limit (default `POINT_LIMIT = 1,000,000`). -/
theorem bboxCount_spec (j0 j1 i0 i1 : Nat) (sample : Int) (limit : Nat)
    (hj : j0 ≤ j1) (hi : i0 ≤ i1) (hs : 1 ≤ sample) :
    (limit < ((j1 - j0) / sample.toNat + 1) * ((i1 - i0) / sample.toNat + 1) →
      bboxCount j0 j1 i0 i1 sample limit =
        .tooMany (((j1 - j0) / sample.toNat + 1) *
          ((i1 - i0) / sample.toNat + 1)) limit) ∧
    (((j1 - j0) / sample.toNat + 1) * ((i1 - i0) / sample.toNat + 1) ≤ limit →
      bboxCount j0 j1 i0 i1 sample limit =
        .ok (((j1 - j0) / sample.toNat + 1) * ((i1 - i0) / sample.toNat + 1))
          sample.toNat) := by
  simp only [bboxCount, if_neg (by omega : ¬ sample < 1),
    if_neg (by omega : ¬ j1 < j0), if_neg (by omega : ¬ i1 < i0)]
  constructor
  · intro h
    rw [if_pos h]
  · intro h
    rw [if_neg (by omega)]

/-- **C6** witness: the spec's scenario — index spans `0..1999 × 0..1999`
(2000×2000 cells) with the default limit: stride 1 fails with
`TooManyPoints (4,000,000)`, stride 2 yields exactly 1,000,000 points and
succeeds. -/
theorem bboxCount_spec_witness :
    ((0 : Nat) ≤ 1999 ∧ (0 : Nat) ≤ 1999 ∧ (1 : Int) ≤ 1 ∧ (1 : Int) ≤ 2) ∧
    bboxCount 0 1999 0 1999 1 POINT_LIMIT =
      .tooMany (((1999 - 0) / (1 : Int).toNat + 1) *
        ((1999 - 0) / (1 : Int).toNat + 1)) POINT_LIMIT ∧
    bboxCount 0 1999 0 1999 2 POINT_LIMIT =
      .ok (((1999 - 0) / (2 : Int).toNat + 1) *
        ((1999 - 0) / (2 : Int).toNat + 1)) (2 : Int).toNat :=
  ⟨⟨by omega, by omega, by omega, by omega⟩,
   (bboxCount_spec 0 1999 0 1999 1 POINT_LIMIT (by omega) (by omega)
      (by omega)).1 (by decide),
   (bboxCount_spec 0 1999 0 1999 2 POINT_LIMIT (by omega) (by omega)
      (by omega)).2 (by decide)⟩

lemma roundHalfEven_intCast (n : ℤ) : roundHalfEven (n : ℚ) = n := by
  simp only [roundHalfEven, Int.floor_intCast, sub_self]
  rw [if_pos (by norm_num)]

lemma roundTo_idem (n : Nat) (x : ℚ) : roundTo n (roundTo n x) = roundTo n x := by
  have hpow : (10 : ℚ) ^ n ≠ 0 := by positivity
  simp only [roundTo]
  rw [div_mul_cancel₀ _ hpow, roundHalfEven_intCast]

lemma abs_roundHalfEven_sub (q : ℚ) : |(roundHalfEven q : ℚ) - q| ≤ 1/2 := by
  have hfl : (⌊q⌋ : ℚ) ≤ q := Int.floor_le q
  have hfu : q < ⌊q⌋ + 1 := Int.lt_floor_add_one q
  simp only [roundHalfEven]
  split_ifs with h1 h2 h3
  · rw [abs_of_nonpos (by linarith)]
    linarith
  · push_cast
    rw [abs_of_nonneg (by linarith)]
    linarith
  · rw [abs_of_nonpos (by linarith)]
    linarith
  · push_cast
    rw [abs_of_nonneg (by linarith)]
    linarith

lemma roundTo_spec (n : Nat) (x : ℚ) :
    ∃ m : ℤ, roundTo n x = (m : ℚ) / 10 ^ n ∧
      |roundTo n x - x| ≤ 1 / (2 * 10 ^ n) := by
  refine ⟨roundHalfEven (x * 10 ^ n), rfl, ?_⟩
  have hpow : (0 : ℚ) < 10 ^ n := by positivity
  have h := abs_roundHalfEven_sub (x * 10 ^ n)
  have heq : roundTo n x - x =
      ((roundHalfEven (x * 10 ^ n) : ℚ) - x * 10 ^ n) / 10 ^ n := by
    rw [roundTo]
    field_simp
    ring
  rw [heq, abs_div, abs_of_pos hpow,
    show (1 : ℚ) / (2 * 10 ^ n) = (1/2) / 10 ^ n from by ring]
  gcongr

lemma truncRow_idem (fields : List String) (r : SstRow) :
    truncRow fields (truncRow fields r) = truncRow fields r := by
  have h5 : ∀ o : Option ℚ, (o.map (roundTo 5)).map (roundTo 5) =
      o.map (roundTo 5) := by
    intro o
    rw [Option.map_map]
    exact congrArg (fun f => o.map f) (funext fun x => roundTo_idem 5 x)
  have hg : ∀ kv : String × Option ℚ,
      (fun kv : String × Option ℚ =>
        if kv.1 ∈ fields then (kv.1, kv.2.map (roundTo 3)) else kv)
      ((fun kv : String × Option ℚ =>
        if kv.1 ∈ fields then (kv.1, kv.2.map (roundTo 3)) else kv) kv) =
      (fun kv : String × Option ℚ =>
        if kv.1 ∈ fields then (kv.1, kv.2.map (roundTo 3)) else kv) kv := by
    intro kv
    by_cases hkv : kv.1 ∈ fields
    · simp only [if_pos hkv, Option.map_map]
      exact congrArg (fun f => (kv.1, kv.2.map f))
        (funext fun x => roundTo_idem 3 x)
    · simp only [if_neg hkv]
  cases r with
  | mk lon lat vals =>
    simp only [truncRow, SstRow.mk.injEq, List.map_map]
    refine ⟨h5 lon, h5 lat, ?_⟩
    exact List.map_congr_left fun kv _ => hg kv

/-- **C9** (confirmed).  The `truncate` mode rounds `lon`/`lat` to 5 and
each requested field's value to 3 decimal places (a rounding in the exact
sense: the result is a multiple of `10^-5` resp. `10^-3` within half a
unit of the input), leaves `none` values untouched, leaves rows at full
precision when `truncate` is absent, and is idempotent. -/
theorem applyModes_spec (rows : List SstRow) (modes fields : List String) :
    ("truncate" ∉ modes → applyModes rows modes fields = rows) ∧
    ("truncate" ∈ modes →
      applyModes rows modes fields = rows.map (truncRow fields)) ∧
    (∀ r : SstRow, (truncRow fields r).lon = r.lon.map (roundTo 5) ∧
      (truncRow fields r).lat = r.lat.map (roundTo 5) ∧
      (truncRow fields r).vals = r.vals.map (fun kv =>
        if kv.1 ∈ fields then (kv.1, kv.2.map (roundTo 3)) else kv) ∧
      (r.lon = none → (truncRow fields r).lon = none)) ∧
    (∀ x : ℚ, ∃ m : ℤ, roundTo 5 x = (m : ℚ) / 10 ^ 5 ∧
      |roundTo 5 x - x| ≤ 1 / (2 * 10 ^ 5)) ∧
    (∀ x : ℚ, ∃ m : ℤ, roundTo 3 x = (m : ℚ) / 10 ^ 3 ∧
      |roundTo 3 x - x| ≤ 1 / (2 * 10 ^ 3)) ∧
    applyModes (applyModes rows modes fields) modes fields =
      applyModes rows modes fields := by
  refine ⟨?_, ?_,
    fun r => ⟨rfl, rfl, rfl, fun hn => by simp [truncRow, hn]⟩,
    fun x => roundTo_spec 5 x, fun x => roundTo_spec 3 x, ?_⟩
  · intro h
    simp [applyModes, h]
  · intro h
    simp [applyModes, h]
  · by_cases h : "truncate" ∈ modes
    · simp only [applyModes, if_pos h, List.map_map]
      exact congrArg rows.map (funext fun r => truncRow_idem fields r)
    · simp [applyModes, h]

/-- **C9** witness: a concrete row list under `mode=truncate`, instantiating
the theorem's `truncate`-present branch. -/
theorem applyModes_spec_witness :
    ("truncate" ∈ ["truncate"]) ∧
    applyModes
        [{ lon := some (1234567/100000), lat := some 0,
           vals := [("sst", some (25/3)), ("sea_ice", none)] }]
        ["truncate"] ["sst"] =
      [{ lon := some (1234567/100000), lat := some 0,
         vals := [("sst", some (25/3)), ("sea_ice", none)] }].map
        (truncRow ["sst"]) :=
  ⟨by simp,
   (applyModes_spec
      [{ lon := some (1234567/100000), lat := some 0,
         vals := [("sst", some (25/3)), ("sea_ice", none)] }]
      ["truncate"] ["sst"]).2.1 (by simp)⟩

lemma lexLt_asymm : ∀ a b : List Char, lexLt a b = true → lexLt b a = false := by
  intro a
  induction a with
  | nil =>
    intro b hb
    cases b with
    | nil => simp [lexLt] at hb
    | cons y ys => simp [lexLt]
  | cons x xs ih =>
    intro b hb
    cases b with
    | nil => simp [lexLt] at hb
    | cons y ys =>
      simp only [lexLt] at hb ⊢
      by_cases hxy : x < y
      · rw [if_neg (lt_asymm hxy), if_pos hxy]
      · rw [if_neg hxy] at hb
        by_cases hyx : y < x
        · rw [if_pos hyx] at hb
          simp at hb
        · rw [if_neg hyx] at hb
          rw [if_neg hyx, if_neg hxy]
          exact ih ys hb

/-- **C10** (confirmed).  The range parser returns nothing with fewer than
two date matches (disabling the fallback), and with at least two it returns
the LAST two matches of the text, swapped if needed so that the returned
pair is in chronological (lexicographic) order. -/
theorem parseAvailableRange_spec (text : List Char) :
    ((findDates text).length < 2 → parseAvailableRange text = none) ∧
    (2 ≤ (findDates text).length → ∃ p q,
      parseAvailableRange text = some (p, q) ∧
      lexLt q p = false ∧
      ((p = (findDates text).getD ((findDates text).length - 2) [] ∧
        q = (findDates text).getD ((findDates text).length - 1) []) ∨
       (p = (findDates text).getD ((findDates text).length - 1) [] ∧
        q = (findDates text).getD ((findDates text).length - 2) []))) := by
  constructor
  · intro h
    simp only [parseAvailableRange]
    rw [if_neg (by omega)]
  · intro h
    simp only [parseAvailableRange]
    rw [if_pos h]
    by_cases hlt :
        lexLt ((findDates text).getD ((findDates text).length - 1) [])
          ((findDates text).getD ((findDates text).length - 2) []) = true
    · rw [if_pos hlt]
      exact ⟨_, _, rfl, lexLt_asymm _ _ hlt, Or.inr ⟨rfl, rfl⟩⟩
    · rw [if_neg hlt]
      refine ⟨_, _, rfl, ?_, Or.inl ⟨rfl, rfl⟩⟩
      simpa using hlt

/-- **C10** witness: on `sampleErrorText` (dates 2025-10-10, 2025-10-05,
2025-10-01) the parser has three matches, and the theorem instantiates to
the last two, swapped into order. -/
theorem parseAvailableRange_spec_witness :
    (2 ≤ (findDates sampleErrorText).length) ∧
    (∃ p q,
      parseAvailableRange sampleErrorText = some (p, q) ∧
      lexLt q p = false ∧
      ((p = (findDates sampleErrorText).getD
          ((findDates sampleErrorText).length - 2) [] ∧
        q = (findDates sampleErrorText).getD
          ((findDates sampleErrorText).length - 1) []) ∨
       (p = (findDates sampleErrorText).getD
          ((findDates sampleErrorText).length - 1) [] ∧
        q = (findDates sampleErrorText).getD
          ((findDates sampleErrorText).length - 2) []))) :=
  ⟨by decide, (parseAvailableRange_spec sampleErrorText).2 (by decide)⟩

/-- **C3** counterexample: tolerance 7, reported range `[0, 10]` (day
ordinals), requested date `4` lies strictly INSIDE the range (an in-range
day whose group is missing), yet the handler still fires the fallback and
retries against day `0` — contradicting "fires only when the requested
date lies outside [earliest, latest]". -/
theorem nearestFallback_counterexample :
    (0 : Int) ≤ 4 ∧ (4 : Int) ≤ 10 ∧
    handleNotFound true (some 4) (some (0, 10)) NEAREST_TOLERANCE_DAYS =
      .retry 0 := by decide

/-- **C3** (corrected).  The fallback fires whenever method is `nearest`,
a date was given, a range was parsed, and the nearest bound differs from
the requested date — including dates strictly inside the reported range;
when it fires, the chronologically closer bound is chosen (ties to
earliest), the fallback request is issued only when the day distance is
within the tolerance, and exceeding the tolerance fails naming both the
requested and the fallback date. -/
theorem nearestFallback_spec (d e l : Int) (tol : Nat) (hel : e ≤ l) :
    (selectNearestDate d e l = e ∨ selectNearestDate d e l = l) ∧
    ((e - d).natAbs ≤ (l - d).natAbs → selectNearestDate d e l = e) ∧
    ((l - d).natAbs < (e - d).natAbs → selectNearestDate d e l = l) ∧
    (handleNotFound true (some d) (some (e, l)) tol = .reraise ↔
      selectNearestDate d e l = d) ∧
    (handleNotFound true (some d) (some (e, l)) tol =
        .retry (selectNearestDate d e l) ↔
      (selectNearestDate d e l ≠ d ∧
       (d - selectNearestDate d e l).natAbs ≤ tol)) ∧
    (selectNearestDate d e l ≠ d →
      tol < (d - selectNearestDate d e l).natAbs →
      handleNotFound true (some d) (some (e, l)) tol =
        .toleranceFail d (selectNearestDate d e l)
          (d - selectNearestDate d e l).natAbs) ∧
    (∀ rng, handleNotFound false (some d) rng tol = .reraise) ∧
    handleNotFound true none (some (e, l)) tol = .reraise ∧
    handleNotFound true (some d) none tol = .reraise := by
  refine ⟨?_, ?_, ?_, ?_, ?_, ?_, fun rng => rfl, rfl, rfl⟩
  · simp only [selectNearestDate]
    split_ifs <;> simp
  · intro habs
    simp only [selectNearestDate]
    split_ifs <;> omega
  · intro habs
    simp only [selectNearestDate]
    split_ifs <;> omega
  · by_cases hfb : selectNearestDate d e l = d
    · simp [handleNotFound, hfb]
    · by_cases htol : tol < (d - selectNearestDate d e l).natAbs
      · simp [handleNotFound, hfb, htol]
      · simp [handleNotFound, hfb, htol]
  · by_cases hfb : selectNearestDate d e l = d
    · simp [handleNotFound, hfb]
    · by_cases htol : tol < (d - selectNearestDate d e l).natAbs
      · simp [handleNotFound, hfb, htol]
      · simp [handleNotFound, hfb, htol]
        omega
  · intro hfb htol
    simp [handleNotFound, hfb, htol]

/-- **C3** witness: the spec's own scenario — requested `2025-10-10`
(day 9), range `2025-10-01..2025-10-05` (days 0..4), tolerance 7: the
handler retries against the latest bound (day 4, distance 5 ≤ 7). -/
theorem nearestFallback_spec_witness :
    ((0 : Int) ≤ 4) ∧
    handleNotFound true (some 9) (some (0, 4)) NEAREST_TOLERANCE_DAYS =
      .retry (selectNearestDate 9 0 4) :=
  ⟨by decide,
   ((nearestFallback_spec 9 0 4 NEAREST_TOLERANCE_DAYS
      (by decide)).2.2.2.2.1).mpr (by decide)⟩

lemma reqLoop_succ (r : Nat → TransportResult) (a : Nat) (last : LastErr)
    (fuel : Nat) :
    reqLoop r a last (fuel + 1) =
      match r a with
      | .status c =>
        if isRetryable c then
          ((reqLoop r (a + 1) (.resp c) fuel).1,
           (if 0 < fuel then [INITIAL_BACKOFF * 2 ^ a] else []) ++
             (reqLoop r (a + 1) (.resp c) fuel).2)
        else (.success c, [])
      | .exn =>
        ((reqLoop r (a + 1) .exn fuel).1,
         (if 0 < fuel then [INITIAL_BACKOFF * 2 ^ a] else []) ++
           (reqLoop r (a + 1) .exn fuel).2) := rfl

lemma reqLoop_congr (r r2 : Nat → TransportResult) :
    ∀ (fuel a : Nat) (last : LastErr),
      (∀ i, a ≤ i → i < a + fuel → r i = r2 i) →
      reqLoop r a last fuel = reqLoop r2 a last fuel := by
  intro fuel
  induction fuel with
  | zero => intro a last _; rfl
  | succ fuel ih =>
    intro a last h
    rw [reqLoop_succ, reqLoop_succ, ← h a (le_refl a) (by omega)]
    cases hr : r a with
    | exn =>
      dsimp only
      rw [ih (a + 1) .exn (fun i h1 h2 => h i (by omega) (by omega))]
    | status c =>
      dsimp only
      rw [ih (a + 1) (.resp c) (fun i h1 h2 => h i (by omega) (by omega))]

lemma backoff_cons (a k : Nat) :
    INITIAL_BACKOFF * 2 ^ a ::
      (List.range k).map (fun i : Nat => INITIAL_BACKOFF * 2 ^ (a + 1 + i)) =
    (List.range (k + 1)).map (fun i : Nat => INITIAL_BACKOFF * 2 ^ (a + i)) := by
  rw [List.range_succ_eq_map, List.map_cons, List.map_map]
  refine congrArg₂ List.cons (by rw [Nat.add_zero]) ?_
  refine List.map_congr_left fun i _ => ?_
  simp only [Function.comp_apply]
  rw [show a + (i + 1) = a + 1 + i from by omega]

lemma reqLoop_success (r : Nat → TransportResult) :
    ∀ (fuel a : Nat) (last : LastErr) (k : Nat) (c : Nat), k < fuel →
      (∀ i, i < k → isRetryableTR (r (a + i)) = true) →
      r (a + k) = .status c → isRetryable c = false →
      reqLoop r a last fuel =
        (.success c,
         (List.range k).map (fun i : Nat => INITIAL_BACKOFF * 2 ^ (a + i))) := by
  intro fuel
  induction fuel with
  | zero => intro a last k c hk; omega
  | succ fuel ih =>
    intro a last k c hk hfail hresp hc
    rw [reqLoop_succ]
    cases k with
    | zero =>
      rw [Nat.add_zero] at hresp
      rw [hresp]
      dsimp only
      rw [if_neg (by simp [hc])]
      simp
    | succ k =>
      have h0 : isRetryableTR (r a) = true := by
        have := hfail 0 (by omega)
        simpa using this
      have hresp' : r (a + 1 + k) = .status c := by
        rw [show a + 1 + k = a + (k + 1) from by omega]
        exact hresp
      have hfail' : ∀ i, i < k → isRetryableTR (r (a + 1 + i)) = true := by
        intro i hi
        have := hfail (i + 1) (by omega)
        rw [show a + (i + 1) = a + 1 + i from by omega] at this
        exact this
      cases hr : r a with
      | exn =>
        dsimp only
        rw [ih (a + 1) .exn k c (by omega) hfail' hresp' hc,
          if_pos (by omega)]
        rw [List.singleton_append, backoff_cons]
      | status c0 =>
        have hc0 : isRetryable c0 = true := by
          simpa [isRetryableTR, hr] using h0
        dsimp only
        rw [if_pos hc0,
          ih (a + 1) (.resp c0) k c (by omega) hfail' hresp' hc,
          if_pos (by omega)]
        rw [List.singleton_append, backoff_cons]

lemma reqLoop_exhaust (r : Nat → TransportResult) :
    ∀ (fuel a : Nat) (last : LastErr),
      (∀ i, i < fuel + 1 → isRetryableTR (r (a + i)) = true) →
      reqLoop r a last (fuel + 1) =
        (finalErr (lastErrOf (r (a + fuel))),
         (List.range fuel).map
           (fun i : Nat => INITIAL_BACKOFF * 2 ^ (a + i))) := by
  intro fuel
  induction fuel with
  | zero =>
    intro a last hfail
    have h0 : isRetryableTR (r a) = true := by
      have := hfail 0 (by omega)
      simpa using this
    rw [reqLoop_succ]
    cases hr : r a with
    | exn =>
      dsimp only
      simp [reqLoop, finalErr, lastErrOf, hr]
    | status c0 =>
      have hc0 : isRetryable c0 = true := by
        simpa [isRetryableTR, hr] using h0
      dsimp only
      rw [if_pos hc0]
      simp [reqLoop, finalErr, lastErrOf, hr]
  | succ fuel ih =>
    intro a last hfail
    rw [reqLoop_succ]
    have h0 : isRetryableTR (r a) = true := by
      have := hfail 0 (by omega)
      simpa using this
    have hfail' : ∀ i, i < fuel + 1 → isRetryableTR (r (a + 1 + i)) = true := by
      intro i hi
      have := hfail (i + 1) (by omega)
      rw [show a + (i + 1) = a + 1 + i from by omega] at this
      exact this
    have harg : a + 1 + fuel = a + (fuel + 1) := by omega
    cases hr : r a with
    | exn =>
      dsimp only
      rw [ih (a + 1) .exn hfail', if_pos (by omega),
        List.singleton_append, backoff_cons, harg]
    | status c0 =>
      have hc0 : isRetryable c0 = true := by
        simpa [isRetryableTR, hr] using h0
      dsimp only
      rw [if_pos hc0, ih (a + 1) (.resp c0) hfail',
        if_pos (by omega), List.singleton_append, backoff_cons, harg]

/-- **C5** (confirmed).  `_ghrsst_request` consults at most `MAX_RETRIES=3`
transport outcomes; each transport exception or retryable status (429,
500, 502, 503, 504) that is followed by another attempt contributes a
backoff sleep of `0.75 * 2^attempt` seconds; any other response returns
immediately with no further attempts; and exhausting all attempts yields
the terminal error built from the last failure's status/detail (never
swallowed). -/
theorem ghrsstRequest_spec (responses : Nat → TransportResult) :
    (∀ responses2 : Nat → TransportResult,
      (∀ i, i < MAX_RETRIES → responses i = responses2 i) →
      ghrsstRequest responses = ghrsstRequest responses2) ∧
    (∀ k c, k < MAX_RETRIES →
      (∀ i, i < k → isRetryableTR (responses i) = true) →
      responses k = .status c → isRetryable c = false →
      ghrsstRequest responses =
        (.success c,
         (List.range k).map (fun i : Nat => INITIAL_BACKOFF * 2 ^ i))) ∧
    ((∀ i, i < MAX_RETRIES → isRetryableTR (responses i) = true) →
      ghrsstRequest responses =
        (finalErr (lastErrOf (responses (MAX_RETRIES - 1))),
         [INITIAL_BACKOFF * 2 ^ 0, INITIAL_BACKOFF * 2 ^ 1])) := by
  refine ⟨?_, ?_, ?_⟩
  · intro r2 h
    exact reqLoop_congr responses r2 MAX_RETRIES 0 .noneYet
      (fun i _ h2 => h i (by omega))
  · intro k c hk hfail hresp hc
    have := reqLoop_success responses MAX_RETRIES 0 .noneYet k c hk
      (fun i hi => by simpa using hfail i hi) (by simpa using hresp) hc
    simpa [ghrsstRequest] using this
  · intro hfail
    have := reqLoop_exhaust responses 2 0 .noneYet
      (fun i hi => by simpa [MAX_RETRIES] using hfail i (by simpa [MAX_RETRIES] using hi))
    simp only [ghrsstRequest, MAX_RETRIES]
    rw [show (3 : Nat) = 2 + 1 from rfl, this]
    simp [List.range_succ]

/-- **C5** witness: attempt 0 returns a retryable 503 (one backoff sleep of
`0.75 * 2^0`), attempt 1 returns a non-retryable 200 and the loop stops
after 2 attempts. -/
theorem ghrsstRequest_spec_witness :
    ((1 : Nat) < MAX_RETRIES ∧ isRetryable 200 = false) ∧
    ghrsstRequest
        (fun i => if i = 0 then .status 503 else .status 200) =
      (.success 200,
       (List.range 1).map (fun i : Nat => INITIAL_BACKOFF * 2 ^ i)) :=
  ⟨⟨by decide, by decide⟩,
   (ghrsstRequest_spec
      (fun i => if i = 0 then .status 503 else .status 200)).2.1
     1 200 (by decide)
     (fun i hi => by
       have h0 : i = 0 := by omega
       subst h0
       decide)
     (by decide) (by decide)⟩

lemma innerTrace_succ (fetch : Int → Nat → FetchResult) (td : Int)
    (s fuel : Nat) :
    innerTrace fetch td s (fuel + 1) =
      match fetch td s with
      | .ok => (.success s, [s])
      | .notFound range? => (.notFound range?, [s])
      | .err => (.errRaise, [s])
      | .tooMany =>
        if 0 < fuel then
          ((innerTrace fetch td (s * 2) fuel).1,
           s :: (innerTrace fetch td (s * 2) fuel).2)
        else (.tooManyFail, [s]) := rfl

lemma innerTrace_strides (fetch : Int → Nat → FetchResult) (td : Int) :
    ∀ (fuel s : Nat), ∃ k, k ≤ fuel ∧
      (innerTrace fetch td s fuel).2 =
        (List.range k).map (fun i : Nat => s * 2 ^ i) ∧
      (∀ i, i + 1 < k → fetch td (s * 2 ^ i) = .tooMany) := by
  intro fuel
  induction fuel with
  | zero =>
    intro s
    exact ⟨0, by omega, rfl, fun i hi => absurd hi (by omega)⟩
  | succ fuel ih =>
    intro s
    rw [innerTrace_succ]
    cases hf : fetch td s with
    | ok =>
      refine ⟨1, by omega, ?_, fun i hi => absurd hi (by omega)⟩
      simp [List.range_succ]
    | notFound range? =>
      refine ⟨1, by omega, ?_, fun i hi => absurd hi (by omega)⟩
      simp [List.range_succ]
    | err =>
      refine ⟨1, by omega, ?_, fun i hi => absurd hi (by omega)⟩
      simp [List.range_succ]
    | tooMany =>
      by_cases hfuel : 0 < fuel
      · obtain ⟨k, hk, htr, hcond⟩ := ih (s * 2)
        refine ⟨k + 1, by omega, ?_, ?_⟩
        · dsimp only
          rw [if_pos hfuel, htr]
          rw [List.range_succ_eq_map, List.map_cons, List.map_map]
          refine congrArg₂ List.cons (by simp) ?_
          refine List.map_congr_left fun i _ => ?_
          simp only [Function.comp_apply, Nat.succ_eq_add_one, pow_succ]
          ring
        · intro i hi
          cases i with
          | zero => simpa using hf
          | succ i =>
            have := hcond i (by omega)
            rw [show s * 2 ^ (i + 1) = s * 2 * 2 ^ i from by ring]
            exact this
      · have hfuel0 : fuel = 0 := by omega
        subst hfuel0
        refine ⟨1, by omega, ?_, fun i hi => absurd hi (by omega)⟩
        dsimp only
        rw [if_neg hfuel]
        simp [List.range_succ]

/-- **C4** (confirmed).  In the bbox-mean stride search: the
`(target_date, stride)` trace splits into at most two passes of at most
`MAX_SAMPLE_ATTEMPTS = 4` fetches each; within a pass the strides are
exactly `initial * 2^i` (each non-final attempt of a pass got
`TooManyPoints` and doubled the stride; strides strictly escalate, so they
never decrease); and a second pass exists only after a first-pass
date-unavailable failure under `nearest` whose substituted date differs
and is within tolerance — and that second pass restarts from the initial
stride estimate against the substituted date. -/
theorem bboxMeanLoop_spec (fetch : Int → Nat → FetchResult) (date : Int)
    (initial : Nat) (methodNearest : Bool) (tol : Nat) (hinit : 1 ≤ initial) :
    ∃ k1 k2 : Nat, ∃ d2 : Int,
      k1 ≤ MAX_SAMPLE_ATTEMPTS ∧ k2 ≤ MAX_SAMPLE_ATTEMPTS ∧
      (bboxMeanLoop fetch date initial methodNearest tol).2 =
        ((List.range k1).map (fun i : Nat => (date, initial * 2 ^ i))) ++
        ((List.range k2).map (fun i : Nat => (d2, initial * 2 ^ i))) ∧
      (∀ i j : Nat, i < j → initial * 2 ^ i < initial * 2 ^ j) ∧
      (∀ i, i + 1 < k1 → fetch date (initial * 2 ^ i) = .tooMany) ∧
      (∀ i, i + 1 < k2 → fetch d2 (initial * 2 ^ i) = .tooMany) ∧
      (0 < k2 → methodNearest = true ∧ ∃ e l : Int,
        (innerTrace fetch date initial MAX_SAMPLE_ATTEMPTS).1 =
          .notFound (some (e, l)) ∧
        d2 = selectNearestDate date e l ∧ d2 ≠ date ∧
        (date - d2).natAbs ≤ tol) := by
  obtain ⟨k1, hk1, htr1, hcond1⟩ :=
    innerTrace_strides fetch date MAX_SAMPLE_ATTEMPTS initial
  have hmono : ∀ i j : Nat, i < j → initial * 2 ^ i < initial * 2 ^ j := by
    intro i j hij
    exact mul_lt_mul_of_pos_left
      (Nat.pow_lt_pow_right (by omega) hij) (by omega)
  simp only [bboxMeanLoop]
  cases ho1 : (innerTrace fetch date initial MAX_SAMPLE_ATTEMPTS).1 with
  | success s =>
    refine ⟨k1, 0, date, hk1, by omega, ?_, hmono, hcond1,
      fun i hi => absurd hi (by omega), fun h => absurd h (by omega)⟩
    dsimp only
    rw [htr1, List.map_map]
    simp
  | tooManyFail =>
    refine ⟨k1, 0, date, hk1, by omega, ?_, hmono, hcond1,
      fun i hi => absurd hi (by omega), fun h => absurd h (by omega)⟩
    dsimp only
    rw [htr1, List.map_map]
    simp
  | errRaise =>
    refine ⟨k1, 0, date, hk1, by omega, ?_, hmono, hcond1,
      fun i hi => absurd hi (by omega), fun h => absurd h (by omega)⟩
    dsimp only
    rw [htr1, List.map_map]
    simp
  | exhausted =>
    refine ⟨k1, 0, date, hk1, by omega, ?_, hmono, hcond1,
      fun i hi => absurd hi (by omega), fun h => absurd h (by omega)⟩
    dsimp only
    rw [htr1, List.map_map]
    simp
  | notFound range? =>
    cases methodNearest with
    | false =>
      cases range? with
      | none =>
        refine ⟨k1, 0, date, hk1, by omega, ?_, hmono, hcond1,
          fun i hi => absurd hi (by omega), fun h => absurd h (by omega)⟩
        dsimp only
        rw [htr1, List.map_map]
        simp
      | some p =>
        refine ⟨k1, 0, date, hk1, by omega, ?_, hmono, hcond1,
          fun i hi => absurd hi (by omega), fun h => absurd h (by omega)⟩
        dsimp only
        rw [htr1, List.map_map]
        simp
    | true =>
      cases range? with
      | none =>
        refine ⟨k1, 0, date, hk1, by omega, ?_, hmono, hcond1,
          fun i hi => absurd hi (by omega), fun h => absurd h (by omega)⟩
        dsimp only
        rw [htr1, List.map_map]
        simp
      | some p =>
        obtain ⟨e, l⟩ := p
        dsimp only
        by_cases hfb : selectNearestDate date e l = date
        · rw [if_pos hfb]
          refine ⟨k1, 0, date, hk1, by omega, ?_, hmono, hcond1,
            fun i hi => absurd hi (by omega), fun h => absurd h (by omega)⟩
          rw [htr1, List.map_map]
          simp
        · rw [if_neg hfb]
          by_cases htol : tol < (date - selectNearestDate date e l).natAbs
          · rw [if_pos htol]
            refine ⟨k1, 0, date, hk1, by omega, ?_, hmono, hcond1,
              fun i hi => absurd hi (by omega), fun h => absurd h (by omega)⟩
            rw [htr1, List.map_map]
            simp
          · rw [if_neg htol]
            obtain ⟨k2, hk2, htr2, hcond2⟩ :=
              innerTrace_strides fetch (selectNearestDate date e l)
                MAX_SAMPLE_ATTEMPTS initial
            cases ho2 : (innerTrace fetch (selectNearestDate date e l)
                initial MAX_SAMPLE_ATTEMPTS).1 with
            | success s2 =>
              refine ⟨k1, k2, selectNearestDate date e l, hk1, hk2, ?_,
                hmono, hcond1, hcond2,
                fun _ => ⟨rfl, e, l, rfl, rfl, hfb, by omega⟩⟩
              dsimp only
              rw [htr1, htr2, List.map_map, List.map_map]
              rfl
            | tooManyFail =>
              refine ⟨k1, k2, selectNearestDate date e l, hk1, hk2, ?_,
                hmono, hcond1, hcond2,
                fun _ => ⟨rfl, e, l, rfl, rfl, hfb, by omega⟩⟩
              dsimp only
              rw [htr1, htr2, List.map_map, List.map_map]
              rfl
            | errRaise =>
              refine ⟨k1, k2, selectNearestDate date e l, hk1, hk2, ?_,
                hmono, hcond1, hcond2,
                fun _ => ⟨rfl, e, l, rfl, rfl, hfb, by omega⟩⟩
              dsimp only
              rw [htr1, htr2, List.map_map, List.map_map]
              rfl
            | exhausted =>
              refine ⟨k1, k2, selectNearestDate date e l, hk1, hk2, ?_,
                hmono, hcond1, hcond2,
                fun _ => ⟨rfl, e, l, rfl, rfl, hfb, by omega⟩⟩
              dsimp only
              rw [htr1, htr2, List.map_map, List.map_map]
              rfl
            | notFound range2? =>
              refine ⟨k1, k2, selectNearestDate date e l, hk1, hk2, ?_,
                hmono, hcond1, hcond2,
                fun _ => ⟨rfl, e, l, rfl, rfl, hfb, by omega⟩⟩
              dsimp only
              rw [htr1, htr2, List.map_map, List.map_map]
              rfl

/-- **C4** witness: requested day 5, initial stride 1, `nearest`,
tolerance 7, instantiating the stride-search theorem on `fetchEx` (the
run doubles 1→2, substitutes day 3, resets to stride 1 and succeeds). -/
theorem bboxMeanLoop_spec_witness :
    ((1 : Nat) ≤ 1) ∧
    (∃ k1 k2 : Nat, ∃ d2 : Int,
      k1 ≤ MAX_SAMPLE_ATTEMPTS ∧ k2 ≤ MAX_SAMPLE_ATTEMPTS ∧
      (bboxMeanLoop fetchEx 5 1 true 7).2 =
        ((List.range k1).map (fun i : Nat => ((5 : Int), 1 * 2 ^ i))) ++
        ((List.range k2).map (fun i : Nat => (d2, 1 * 2 ^ i))) ∧
      (∀ i j : Nat, i < j → 1 * 2 ^ i < 1 * 2 ^ j) ∧
      (∀ i, i + 1 < k1 → fetchEx 5 (1 * 2 ^ i) = .tooMany) ∧
      (∀ i, i + 1 < k2 → fetchEx d2 (1 * 2 ^ i) = .tooMany) ∧
      (0 < k2 → true = true ∧ ∃ e l : Int,
        (innerTrace fetchEx 5 1 MAX_SAMPLE_ATTEMPTS).1 =
          .notFound (some (e, l)) ∧
        d2 = selectNearestDate 5 e l ∧ d2 ≠ 5 ∧
        ((5 : Int) - d2).natAbs ≤ 7)) :=
  ⟨by omega, bboxMeanLoop_spec fetchEx 5 1 true 7 (by omega)⟩

/-- **C7** witness: bounds `[0, 4]` with every group present, only `start`
given: the check accepts exactly the supplied day. -/
theorem bboxDay_spec_witness :
    bboxDayCheck (some 2) none 0 4 (fun _ => true) = .ok 2 :=
  ((bboxDay_spec 0 4 (fun _ => true)).2.2.2.2.1 (some 2) none 2).mpr
    ⟨rfl, by omega, by omega, rfl⟩

end Ghrsst
